import Mathlib

/-!
# Verification of the video frame extraction service (src/app.py)

A shallow embedding of the job registry, frame-extraction worker and
HTTP façade of the Flask application in `src/app.py`, together with
theorems settling the specification claims.

Modelling conventions:
* Python floats (frame rates, intervals, resize factors) are idealized
  as rationals `ℚ`.
* Python `int()` is truncation toward zero (`pyInt`), Python `round()`
  is round-half-to-even (`pyRound`).
* `video.read()` after a seek may fail; each video carries a `decode`
  predicate on frame indices recording which reads succeed.
* Exceptions inside the worker are modelled at file granularity: an
  input is either a readable `VideoFile` or raises with a message.
* The in-memory job dict is a `Job` record; keys that the Python code
  only adds later (`files_done`, `frames_accumulated`, `total_frames`,
  `output_folder`, `error`) are `Option` fields that start out `none`.
-/

namespace VideosToPhotos

/-- Python `int()` applied to a real value: truncation toward zero. -/
def pyInt (q : ℚ) : ℤ :=
  if 0 ≤ q then ⌊q⌋ else ⌈q⌉

/-- Python `round()` applied to a real value: round half to even. -/
def pyRound (q : ℚ) : ℤ :=
  if q - ⌊q⌋ < 1/2 then ⌊q⌋
  else if 1/2 < q - ⌊q⌋ then ⌊q⌋ + 1
  else if ⌊q⌋ % 2 = 0 then ⌊q⌋ else ⌊q⌋ + 1

/-- Number of elements of Python `range(a, n, g)` for step `g ≥ 1`. -/
def pyRangeLen (a n g : ℤ) : ℕ :=
  if a < n then (n - a - 1).toNat / g.toNat + 1 else 0

/-- Python `range(a, n, g)` with step `g ≥ 1`, as a list of integers. -/
def pyRange (a n g : ℤ) : List ℤ :=
  (List.range (pyRangeLen a n g)).map (fun (j : ℕ) => a + (j : ℤ) * g)

/-- Python `f"{i:04d}"` for a nonnegative `i`: decimal digits padded with
leading zeros to at least four characters. -/
def pad4 (i : ℕ) : String :=
  let s := Nat.repr i
  String.mk (List.replicate (4 - s.length) '0') ++ s

theorem pyRound_ge_floor (q : ℚ) : ⌊q⌋ ≤ pyRound q := by
  unfold pyRound
  split_ifs <;> omega

theorem pyRound_le_floor_add_one (q : ℚ) : pyRound q ≤ ⌊q⌋ + 1 := by
  unfold pyRound
  split_ifs <;> omega

theorem pyRound_intCast (n : ℤ) : pyRound (n : ℚ) = n := by
  unfold pyRound
  rw [Int.floor_intCast, sub_self]
  norm_num

theorem pyRound_mono {a b : ℚ} (h : a ≤ b) : pyRound a ≤ pyRound b := by
  rcases lt_or_eq_of_le (Int.floor_mono h) with hf | hf
  · calc pyRound a ≤ ⌊a⌋ + 1 := pyRound_le_floor_add_one a
      _ ≤ ⌊b⌋ := by omega
      _ ≤ pyRound b := pyRound_ge_floor b
  · unfold pyRound
    rw [hf]
    have hsub : a - (⌊b⌋ : ℚ) ≤ b - (⌊b⌋ : ℚ) := by linarith
    split_ifs <;> first | omega | linarith

theorem lt_pyRangeLen_iff {a n g : ℤ} (hg : 1 ≤ g) {j : ℕ} :
    j < pyRangeLen a n g ↔ a + (j : ℤ) * g < n := by
  unfold pyRangeLen
  have hgn : 0 < g.toNat := by omega
  have hgg : (g.toNat : ℤ) = g := Int.toNat_of_nonneg (by omega)
  constructor
  · intro hj
    split_ifs at hj with han
    · have hj' : j ≤ (n - a - 1).toNat / g.toNat := Nat.lt_succ_iff.1 hj
      have hmul : j * g.toNat ≤ (n - a - 1).toNat := (Nat.le_div_iff_mul_le hgn).1 hj'
      have h2 : ((j * g.toNat : ℕ) : ℤ) ≤ ((n - a - 1).toNat : ℤ) := by exact_mod_cast hmul
      rw [Int.toNat_of_nonneg (by omega)] at h2
      push_cast at h2
      rw [hgg] at h2
      omega
    · omega
  · intro hk
    have hjg : (0 : ℤ) ≤ (j : ℤ) * g := by positivity
    have han : a < n := by omega
    rw [if_pos han]
    have hmul : (j : ℤ) * g ≤ n - a - 1 := by omega
    have hnat : j * g.toNat ≤ (n - a - 1).toNat := by
      have h3 : ((j * g.toNat : ℕ) : ℤ) ≤ ((n - a - 1).toNat : ℤ) := by
        push_cast
        rw [hgg, Int.toNat_of_nonneg (by omega)]
        exact hmul
      exact_mod_cast h3
    exact Nat.lt_succ_iff.2 ((Nat.le_div_iff_mul_le hgn).2 hnat)

theorem mem_pyRange {a n g : ℤ} (hg : 1 ≤ g) {k : ℤ} :
    k ∈ pyRange a n g ↔ ∃ j : ℕ, k = a + (j : ℤ) * g ∧ k < n := by
  unfold pyRange
  simp only [List.mem_map, List.mem_range]
  constructor
  · rintro ⟨j, hj, rfl⟩
    exact ⟨j, rfl, (lt_pyRangeLen_iff hg).1 hj⟩
  · rintro ⟨j, rfl, hk⟩
    exact ⟨j, (lt_pyRangeLen_iff hg).2 hk, rfl⟩

theorem pyRange_sorted {a n g : ℤ} (hg : 1 ≤ g) :
    (pyRange a n g).Pairwise (· < ·) := by
  unfold pyRange
  rw [List.pairwise_map]
  refine (List.pairwise_lt_range _).imp ?_
  intro i j hij
  have hij' : (i : ℤ) < (j : ℤ) := by exact_mod_cast hij
  nlinarith

/-! ## Data model -/

/-- A decoded image as the worker sees it: only its pixel dimensions
matter for the claims. -/
structure PImage where
  width : ℤ
  height : ℤ
deriving DecidableEq

/-- `resize_image` (src/app.py lines 34-37):
`int(image.width * resize_factor)` by `int(image.height * resize_factor)`. -/
def resize_image (image : PImage) (resize_factor : ℚ) : PImage :=
  ⟨pyInt ((image.width : ℚ) * resize_factor), pyInt ((image.height : ℚ) * resize_factor)⟩

/-- One image file written to the job's output folder. -/
structure Output where
  name : String
  width : ℤ
  height : ℤ
deriving DecidableEq

/-- A video file the decoder can open.  `decode idx` records whether
`video.read()` succeeds after seeking to frame index `idx`. -/
structure VideoFile where
  name : String
  stem : String
  fps : ℚ
  total_frames : ℤ
  frame_width : ℤ
  frame_height : ℤ
  decode : ℤ → Bool

/-- The in-memory job record (`jobs[job_id]` in src/app.py).  Keys the
Python code only writes later are `Option` fields starting at `none`. -/
structure Job where
  status : String
  progress : ℤ
  total_files : ℕ
  frames_done : ℕ
  current_file : String
  files_done : Option ℕ
  frames_accumulated : Option ℕ
  total_frames : Option ℕ
  output_folder : Option String
  error : Option String
deriving DecidableEq

/-- The job record created by `upload` (src/app.py lines 160-166). -/
def initialJob (total_files : ℕ) : Job :=
  { status := "queued", progress := 0, total_files := total_files,
    frames_done := 0, current_file := "", files_done := none,
    frames_accumulated := none, total_frames := none,
    output_folder := none, error := none }

/-! ## Frame extraction worker -/

/-- The extraction schedule (src/app.py lines 54-56):
`range(int(delay_s * fps), total_frames, max(1, int(fps * interval_s)))`. -/
def index_to_extract (fps interval_s delay_s : ℚ) (total_frames : ℤ) : List ℤ :=
  pyRange (pyInt (delay_s * fps)) total_frames (max 1 (pyInt (fps * interval_s)))

/-- The extraction schedule as the specification words it: arithmetic
sequence starting at `round(delay_s * r)` with step
`max(1, round(interval_s * r))`, truncated below the frame count. -/
def specSchedule (fps interval_s delay_s : ℚ) (total_frames : ℤ) : List ℤ :=
  pyRange (round (delay_s * fps)) total_frames (max 1 (round (interval_s * fps)))

/-- The image written for one frame: resized when `resize` is truthy
(src/app.py lines 69-70; Python `if resize:` is false for `None` and `0.0`). -/
def frameImage (v : VideoFile) (resize : Option ℚ) : PImage :=
  if resize.getD 0 ≠ 0 then resize_image ⟨v.frame_width, v.frame_height⟩ (resize.getD 0)
  else ⟨v.frame_width, v.frame_height⟩

/-- The output file written at schedule position `p.1` (src/app.py line 80):
`f"{file_name}_{i:04d}.jpg"`. -/
def frameOut (v : VideoFile) (resize : Option ℚ) (p : ℕ × ℤ) : Output :=
  ⟨v.stem ++ "_" ++ pad4 p.1 ++ ".jpg", (frameImage v resize).width, (frameImage v resize).height⟩

/-- The progress percentage written at schedule position `p.1`
(src/app.py lines 88-90): `round((file_index + (i+1)/n_frames) / total_files * 100)`. -/
def frameWrite (file_index total_files n_frames : ℕ) (p : ℕ × ℤ) : ℤ :=
  pyRound (((file_index : ℚ) + ((p.1 : ℚ) + 1) / (n_frames : ℚ)) / (total_files : ℚ) * 100)

/-- The job record after the progress update at schedule position `p.1`
(src/app.py lines 86-93). -/
def frameJob (v : VideoFile) (file_index total_files n_frames : ℕ) (job : Job) (p : ℕ × ℤ) : Job :=
  { job with progress := frameWrite file_index total_files n_frames p,
             current_file := v.name,
             frames_done := job.frames_accumulated.getD 0 + p.1 + 1,
             files_done := some file_index }

/-- One iteration of the frame loop (src/app.py lines 62-93): seek to
`p.2` and read; on failure skip the iteration, otherwise write the image
and publish a progress update.  The state is the job record, the outputs
written so far and the trace of job records published so far. -/
def extractStep (v : VideoFile) (resize : Option ℚ) (file_index total_files n_frames : ℕ)
    (st : Job × List Output × List Job) (p : ℕ × ℤ) : Job × List Output × List Job :=
  if v.decode p.2 then
    (frameJob v file_index total_files n_frames st.1 p,
     st.2.1 ++ [frameOut v resize p],
     st.2.2 ++ [frameJob v file_index total_files n_frames st.1 p])
  else st

/-- Result of `extract_frames_from_video`: the number of scheduled frames
(its Python return value), the final job record, the image files written
and the trace of published job records. -/
structure ExtractResult where
  n_frames : ℕ
  job : Job
  outputs : List Output
  trace : List Job

/-- `extract_frames_from_video` (src/app.py lines 40-97) for one video. -/
def extract_frames_from_video (v : VideoFile) (interval_s delay_s : ℚ) (resize : Option ℚ)
    (job : Job) (file_index total_files : ℕ) : ExtractResult :=
  let sched := index_to_extract v.fps interval_s delay_s v.total_frames
  let st := sched.enum.foldl (extractStep v resize file_index total_files sched.length) (job, [], [])
  ⟨sched.length, st.1, st.2.1, st.2.2⟩

/-- Result of `run_extraction`: final job record, all image files
written, and the trace of job records a poller can observe. -/
structure RunResult where
  job : Job
  outputs : List Output
  trace : List Job

/-- The job record written when the file loop completes
(src/app.py lines 120-123). -/
def doneJob (job : Job) (total_frames : ℕ) (output_folder : String) : Job :=
  { job with
    status := "done", progress := 100,
    total_frames := some total_frames, output_folder := some output_folder }

/-- The job record written by the exception handler
(src/app.py lines 125-127). -/
def errorJob (job : Job) (msg : String) : Job :=
  { job with status := "error", error := some msg }

/-- The job record written after one file completes
(src/app.py lines 116-118). -/
def afterFile (total_frames idx : ℕ) (r : ExtractResult) : Job :=
  { r.job with
    frames_accumulated := some (total_frames + r.n_frames),
    files_done := some (idx + 1) }

/-- The file loop of `run_extraction` (src/app.py lines 106-127) plus its
exception handler: inputs are either readable videos or raise a message. -/
def runFiles (interval_s delay_s : ℚ) (resize : Option ℚ) (total : ℕ) (output_folder : String) :
    Job → List Output → List Job → ℕ → ℕ → List (Except String VideoFile) → RunResult
  | job, outs, tr, _, total_frames, [] =>
      ⟨doneJob job total_frames output_folder, outs, tr ++ [doneJob job total_frames output_folder]⟩
  | job, outs, tr, _, _, .error msg :: _ =>
      ⟨errorJob job msg, outs, tr ++ [errorJob job msg]⟩
  | job, outs, tr, idx, total_frames, .ok v :: rest =>
      let r := extract_frames_from_video v interval_s delay_s resize job idx total
      runFiles interval_s delay_s resize total output_folder (afterFile total_frames idx r)
        (outs ++ r.outputs) (tr ++ r.trace ++ [afterFile total_frames idx r]) (idx + 1)
        (total_frames + r.n_frames) rest

/-- `run_extraction` (src/app.py lines 100-127). -/
def run_extraction (job0 : Job) (video_paths : List (Except String VideoFile))
    (interval_s delay_s : ℚ) (resize : Option ℚ) (output_folder : String) : RunResult :=
  let running := { job0 with status := "running" }
  runFiles interval_s delay_s resize video_paths.length output_folder
    running [] [running] 0 0 video_paths

/-- The image files one video contributes (independent of job bookkeeping). -/
def videoOutputs (interval_s delay_s : ℚ) (resize : Option ℚ) (v : VideoFile) : List Output :=
  (((index_to_extract v.fps interval_s delay_s v.total_frames).enum.filter
      (fun p => v.decode p.2)).map (frameOut v resize))

/-- The image files a list of readable videos contributes, in order. -/
def filesOutputs (interval_s delay_s : ℚ) (resize : Option ℚ) (vs : List VideoFile) : List Output :=
  (vs.map (videoOutputs interval_s delay_s resize)).flatten

/-- The number of scheduled frames of one video (the worker's `n_frames`). -/
def scheduledCount (interval_s delay_s : ℚ) (v : VideoFile) : ℕ :=
  (index_to_extract v.fps interval_s delay_s v.total_frames).length

/-! ## HTTP façade -/

/-- The in-memory job registry `jobs` (src/app.py line 17). -/
abbrev Registry := List (String × Job)

/-- `job_id in jobs` / `jobs[job_id]` lookup. -/
def lookup (jobs : Registry) (job_id : String) : Option Job :=
  (jobs.find? (fun p => p.1 == job_id)).map (fun p => p.2)

/-- Response of the `/progress/<job_id>` route. -/
inductive RouteResult where
  | ok (job : Job) : RouteResult
  | err (message : String) (code : ℕ) : RouteResult
deriving DecidableEq

/-- The `/progress/<job_id>` route (src/app.py lines 175-179). -/
def progress (jobs : Registry) (job_id : String) : RouteResult :=
  match lookup jobs job_id with
  | none => .err "Job not found" 404
  | some j => .ok j

/-- Response of the `/download/<job_id>` route. -/
inductive DownloadResult where
  | zipOf (folder : String) (downloadName : String) : DownloadResult
  | err (message : String) (code : ℕ) : DownloadResult
deriving DecidableEq

/-- The `/download/<job_id>` route (src/app.py lines 182-194). -/
def download (jobs : Registry) (job_id : String) : DownloadResult :=
  match lookup jobs job_id with
  | none => .err "Job not ready" 400
  | some j =>
      if j.status ≠ "done" then .err "Job not ready" 400
      else .zipOf (j.output_folder.getD "") ("frames_" ++ job_id ++ ".zip")

/-- Lowercasing as Python `str.lower()` (ASCII suffices for extensions). -/
def lowered (s : String) : String :=
  String.mk (s.data.map Char.toLower)

/-- `f.filename.lower().endswith(('.mov', '.mp4', '.avi'))`
(src/app.py line 152). -/
def hasVideoExt (filename : String) : Bool :=
  ".mov".data.isSuffixOf (lowered filename).data
    || ".mp4".data.isSuffixOf (lowered filename).data
    || ".avi".data.isSuffixOf (lowered filename).data

/-- `resize = float(resize) if resize and float(resize) < 1.0 else None`
(src/app.py lines 143-144); the form value, when present and nonempty, is
modelled as the rational the string denotes. -/
def parseResize (form_value : Option ℚ) : Option ℚ :=
  match form_value with
  | none => none
  | some q => if q < 1 then some q else none

/-- Result of the `/upload` route: the synchronous response, the registry
after the request, the resize factor handed to the worker and the saved
file names. -/
structure UploadResult where
  response : Except (String × ℕ) String
  registry : Registry
  resize : Option ℚ
  saved : List String

/-- The `/upload` route (src/app.py lines 135-172), up to starting the
worker thread: validates the submission, parses the resize factor, keeps
the files with a video extension and registers the new job. -/
def upload (jobs : Registry) (filenames : List String) (resize_factor : Option ℚ)
    (job_id : String) : UploadResult :=
  if filenames.headD "" = "" then
    ⟨.error ("No files uploaded", 400), jobs, none, []⟩
  else
    let resize := parseResize resize_factor
    let saved := filenames.filter hasVideoExt
    if saved = [] then ⟨.error ("No valid video files (MP4, MOV, AVI)", 400), jobs, resize, []⟩
    else ⟨.ok job_id, jobs ++ [(job_id, initialJob saved.length)], resize, saved⟩

/-! ## Structure of the frame loop -/

theorem frameJob_frameJob (v : VideoFile) (fi tf n : ℕ) (j : Job) (p q : ℕ × ℤ) :
    frameJob v fi tf n (frameJob v fi tf n j p) q = frameJob v fi tf n j q := rfl

theorem foldl_extractStep (v : VideoFile) (resize : Option ℚ) (fi tf n : ℕ) :
    ∀ (l : List (ℕ × ℤ)) (j : Job) (outs : List Output) (tr : List Job),
    l.foldl (extractStep v resize fi tf n) (j, outs, tr) =
      ((l.filter (fun p => v.decode p.2)).foldl (frameJob v fi tf n) j,
       outs ++ (l.filter (fun p => v.decode p.2)).map (frameOut v resize),
       tr ++ (l.filter (fun p => v.decode p.2)).map (frameJob v fi tf n j))
  | [], j, outs, tr => by simp
  | p :: l, j, outs, tr => by
    by_cases hd : v.decode p.2
    · have hstep : extractStep v resize fi tf n (j, outs, tr) p =
          (frameJob v fi tf n j p, outs ++ [frameOut v resize p],
           tr ++ [frameJob v fi tf n j p]) := by
        simp [extractStep, hd]
      have hmap : (frameJob v fi tf n (frameJob v fi tf n j p)) =
          frameJob v fi tf n j := funext (fun q => frameJob_frameJob v fi tf n j p q)
      rw [List.foldl_cons, hstep,
        foldl_extractStep v resize fi tf n l (frameJob v fi tf n j p)
          (outs ++ [frameOut v resize p]) (tr ++ [frameJob v fi tf n j p])]
      simp [List.filter_cons, hd, hmap, Prod.mk.injEq]
    · have hstep : extractStep v resize fi tf n (j, outs, tr) p = (j, outs, tr) := by
        simp [extractStep, hd]
      rw [List.foldl_cons, hstep, foldl_extractStep v resize fi tf n l j outs tr]
      simp [List.filter_cons, hd]

/-- The schedule positions the worker actually writes for video `v`. -/
def hits (interval_s delay_s : ℚ) (v : VideoFile) : List (ℕ × ℤ) :=
  (index_to_extract v.fps interval_s delay_s v.total_frames).enum.filter
    (fun p => v.decode p.2)

theorem extract_eq (v : VideoFile) (interval_s delay_s : ℚ) (resize : Option ℚ)
    (job : Job) (fi tf : ℕ) :
    extract_frames_from_video v interval_s delay_s resize job fi tf =
      ⟨scheduledCount interval_s delay_s v,
       (hits interval_s delay_s v).foldl
         (frameJob v fi tf (scheduledCount interval_s delay_s v)) job,
       (hits interval_s delay_s v).map (frameOut v resize),
       (hits interval_s delay_s v).map
         (frameJob v fi tf (scheduledCount interval_s delay_s v) job)⟩ := by
  unfold extract_frames_from_video hits scheduledCount
  dsimp only
  rw [foldl_extractStep]
  simp

theorem extract_outputs (v : VideoFile) (interval_s delay_s : ℚ) (resize : Option ℚ)
    (job : Job) (fi tf : ℕ) :
    (extract_frames_from_video v interval_s delay_s resize job fi tf).outputs =
      videoOutputs interval_s delay_s resize v := by
  rw [extract_eq]; rfl

/-! ## List helper lemmas -/

theorem pairwise_fst_zip {α β : Type} {R : α → α → Prop} :
    ∀ (l1 : List α), l1.Pairwise R → ∀ (l2 : List β),
      (l1.zip l2).Pairwise (fun p q => R p.1 q.1)
  | [], _, l2 => by simp
  | a :: l1, h, [] => by simp
  | a :: l1, h, b :: l2 => by
    rw [List.zip_cons_cons, List.pairwise_cons]
    rcases List.pairwise_cons.1 h with ⟨ha, h1⟩
    refine ⟨?_, pairwise_fst_zip l1 h1 l2⟩
    rintro ⟨x, y⟩ hxy
    exact ha x (List.of_mem_zip hxy).1

theorem pairwise_fst_lt_enum {α : Type} (l : List α) :
    l.enum.Pairwise (fun p q => p.1 < q.1) := by
  rw [List.enum_eq_zip_range]
  exact pairwise_fst_zip _ (List.pairwise_lt_range _) _

theorem fst_lt_of_mem_enum {α : Type} {l : List α} {p : ℕ × α} (h : p ∈ l.enum) :
    p.1 < l.length := by
  obtain ⟨a, b⟩ := p
  rw [List.enum_eq_zip_range] at h
  exact List.mem_range.1 (List.of_mem_zip h).1

theorem getLastD_le_of {l : List ℤ} {d c : ℤ} (hd : d ≤ c) (h : ∀ x ∈ l, x ≤ c) :
    l.getLastD d ≤ c := by
  induction l generalizing d with
  | nil => exact hd
  | cons a t ih =>
    rw [List.getLastD_cons]
    exact ih (h a (by simp)) (fun x hx => h x (by simp [hx]))

theorem le_getLastD_of {l : List ℤ} {d c : ℤ} (hd : c ≤ d) (h : ∀ x ∈ l, c ≤ x) :
    c ≤ l.getLastD d := by
  induction l generalizing d with
  | nil => exact hd
  | cons a t ih =>
    rw [List.getLastD_cons]
    exact ih (h a (by simp)) (fun x hx => h x (by simp [hx]))

theorem pairwise_le_getLastD {l : List ℤ} (hp : l.Pairwise (· ≤ ·)) (d : ℤ) :
    ∀ x ∈ l, x ≤ l.getLastD d := by
  induction l generalizing d with
  | nil => simp
  | cons a t ih =>
    rcases List.pairwise_cons.1 hp with ⟨ha, ht⟩
    intro x hx
    rw [List.getLastD_cons]
    rcases List.mem_cons.1 hx with rfl | hxt
    · exact le_getLastD_of le_rfl ha
    · exact ih ht a x hxt

theorem foldl_frameJob_progress (v : VideoFile) (fi tf n : ℕ) :
    ∀ (l : List (ℕ × ℤ)) (j : Job),
    (l.foldl (frameJob v fi tf n) j).progress =
      (l.map (frameWrite fi tf n)).getLastD j.progress
  | [], j => rfl
  | p :: l, j => by
    rw [List.foldl_cons, List.map_cons, List.getLastD_cons,
      foldl_frameJob_progress v fi tf n l (frameJob v fi tf n j p)]
    rfl

theorem foldl_frameJob_acc (v : VideoFile) (fi tf n : ℕ) :
    ∀ (l : List (ℕ × ℤ)) (j : Job),
    (l.foldl (frameJob v fi tf n) j).frames_accumulated = j.frames_accumulated
  | [], j => rfl
  | p :: l, j => by
    rw [List.foldl_cons, foldl_frameJob_acc v fi tf n l (frameJob v fi tf n j p)]
    rfl

/-! ## Bounds on the progress values -/

/-- The overall fraction published at position `i` of a file. -/
def ovQ (fi tf n i : ℕ) : ℚ :=
  ((fi : ℚ) + ((i : ℚ) + 1) / (n : ℚ)) / (tf : ℚ) * 100

/-- The percentage corresponding to `k` files fully done out of `tf`. -/
def baseQ (k tf : ℕ) : ℚ := (k : ℚ) * 100 / (tf : ℚ)

theorem frameWrite_eq (fi tf n : ℕ) (p : ℕ × ℤ) :
    frameWrite fi tf n p = pyRound (ovQ fi tf n p.1) := rfl

theorem ovQ_mono {fi tf n : ℕ} {i j : ℕ} (h : i ≤ j) : ovQ fi tf n i ≤ ovQ fi tf n j := by
  unfold ovQ
  rcases Nat.eq_zero_or_pos n with hn | hn
  · simp [hn]
  · have hnQ : (0 : ℚ) < (n : ℚ) := by exact_mod_cast hn
    have h1 : ((i : ℚ) + 1) / (n : ℚ) ≤ ((j : ℚ) + 1) / (n : ℚ) := by
      rw [div_le_div_iff_of_pos_right hnQ]
      have : (i : ℚ) ≤ (j : ℚ) := by exact_mod_cast h
      linarith
    rcases Nat.eq_zero_or_pos tf with htf | htf
    · simp [htf]
    · have htfQ : (0 : ℚ) < (tf : ℚ) := by exact_mod_cast htf
      have h2 : ((fi : ℚ) + ((i : ℚ) + 1) / (n : ℚ)) / (tf : ℚ) ≤
          ((fi : ℚ) + ((j : ℚ) + 1) / (n : ℚ)) / (tf : ℚ) := by
        rw [div_le_div_iff_of_pos_right htfQ]
        linarith
      nlinarith

theorem baseQ_le_ovQ (fi tf n i : ℕ) : baseQ fi tf ≤ ovQ fi tf n i := by
  unfold baseQ ovQ
  have hx : (0 : ℚ) ≤ ((i : ℚ) + 1) / (n : ℚ) := by positivity
  rcases Nat.eq_zero_or_pos tf with htf | htf
  · simp [htf]
  · have htfQ : (0 : ℚ) < (tf : ℚ) := by exact_mod_cast htf
    rw [mul_div_right_comm]
    have h2 : (fi : ℚ) / (tf : ℚ) ≤ ((fi : ℚ) + ((i : ℚ) + 1) / (n : ℚ)) / (tf : ℚ) := by
      rw [div_le_div_iff_of_pos_right htfQ]
      linarith
    nlinarith

theorem ovQ_le_baseQ_succ {fi tf n i : ℕ} (h : i < n) : ovQ fi tf n i ≤ baseQ (fi + 1) tf := by
  unfold baseQ ovQ
  have hn : (0 : ℚ) < (n : ℚ) := by
    have : 0 < n := by omega
    exact_mod_cast this
  have hx : ((i : ℚ) + 1) / (n : ℚ) ≤ 1 := by
    rw [div_le_one hn]
    exact_mod_cast Nat.succ_le_of_lt h
  rcases Nat.eq_zero_or_pos tf with htf | htf
  · simp [htf]
  · have htfQ : (0 : ℚ) < (tf : ℚ) := by exact_mod_cast htf
    rw [mul_div_right_comm]
    have h2 : ((fi : ℚ) + ((i : ℚ) + 1) / (n : ℚ)) / (tf : ℚ) ≤ (((fi : ℕ) + 1 : ℕ) : ℚ) / (tf : ℚ) := by
      rw [div_le_div_iff_of_pos_right htfQ]
      push_cast
      linarith
    nlinarith

theorem baseQ_mono {k k' tf : ℕ} (h : k ≤ k') : baseQ k tf ≤ baseQ k' tf := by
  unfold baseQ
  rcases Nat.eq_zero_or_pos tf with htf | htf
  · simp [htf]
  · have htfQ : (0 : ℚ) < (tf : ℚ) := by exact_mod_cast htf
    have hk : (k : ℚ) ≤ (k' : ℚ) := by exact_mod_cast h
    rw [div_le_div_iff_of_pos_right htfQ]
    nlinarith

theorem pyRound_baseQ_zero (tf : ℕ) : pyRound (baseQ 0 tf) = 0 := by
  have h : baseQ 0 tf = ((0 : ℤ) : ℚ) := by simp [baseQ]
  rw [h, pyRound_intCast]

theorem pyRound_baseQ_self_le (T : ℕ) : pyRound (baseQ T T) ≤ 100 := by
  rcases Nat.eq_zero_or_pos T with h | h
  · subst h
    rw [pyRound_baseQ_zero]
    norm_num
  · have hT : (T : ℚ) ≠ 0 := by
      have : (0 : ℚ) < (T : ℚ) := by exact_mod_cast h
      linarith
    have hb : baseQ T T = ((100 : ℤ) : ℚ) := by
      field_simp [baseQ]
    rw [hb, pyRound_intCast]

theorem fileWrites_pairwise (interval_s delay_s : ℚ) (v : VideoFile) (idx T : ℕ) :
    ((hits interval_s delay_s v).map
      (frameWrite idx T (scheduledCount interval_s delay_s v))).Pairwise (· ≤ ·) := by
  rw [List.pairwise_map]
  have hpair : (hits interval_s delay_s v).Pairwise (fun p q => p.1 < q.1) :=
    List.Pairwise.sublist (List.filter_sublist _) (pairwise_fst_lt_enum _)
  refine hpair.imp ?_
  intro p q h
  rw [frameWrite_eq, frameWrite_eq]
  exact pyRound_mono (ovQ_mono (Nat.le_of_lt h))

theorem fileWrites_lower (interval_s delay_s : ℚ) (v : VideoFile) (idx T : ℕ) :
    ∀ w ∈ (hits interval_s delay_s v).map
      (frameWrite idx T (scheduledCount interval_s delay_s v)),
      pyRound (baseQ idx T) ≤ w := by
  intro w hw
  rcases List.mem_map.1 hw with ⟨p, _, rfl⟩
  rw [frameWrite_eq]
  exact pyRound_mono (baseQ_le_ovQ idx T _ p.1)

theorem fileWrites_upper (interval_s delay_s : ℚ) (v : VideoFile) (idx T : ℕ) :
    ∀ w ∈ (hits interval_s delay_s v).map
      (frameWrite idx T (scheduledCount interval_s delay_s v)),
      w ≤ pyRound (baseQ (idx + 1) T) := by
  intro w hw
  rcases List.mem_map.1 hw with ⟨p, hp, rfl⟩
  rw [frameWrite_eq]
  exact pyRound_mono (ovQ_le_baseQ_succ (fst_lt_of_mem_enum (List.mem_filter.1 hp).1))

theorem extract_trace_progress (v : VideoFile) (interval_s delay_s : ℚ) (resize : Option ℚ)
    (job : Job) (fi tf : ℕ) :
    (extract_frames_from_video v interval_s delay_s resize job fi tf).trace.map Job.progress =
      (hits interval_s delay_s v).map (frameWrite fi tf (scheduledCount interval_s delay_s v)) := by
  rw [extract_eq]
  dsimp only
  rw [List.map_map]
  rfl

theorem extract_job_progress (v : VideoFile) (interval_s delay_s : ℚ) (resize : Option ℚ)
    (job : Job) (fi tf : ℕ) :
    (extract_frames_from_video v interval_s delay_s resize job fi tf).job.progress =
      ((hits interval_s delay_s v).map
        (frameWrite fi tf (scheduledCount interval_s delay_s v))).getLastD job.progress := by
  rw [extract_eq]
  dsimp only
  rw [foldl_frameJob_progress]

/-- Invariant of the worker's file loop: the observable trace stays
sorted and a `done` result carries progress 100. -/
theorem runFiles_progress (interval_s delay_s : ℚ) (resize : Option ℚ) (T : ℕ) (folder : String)
    (files : List (Except String VideoFile)) :
    ∀ (job : Job) (outs : List Output) (tr : List Job) (idx tfr : ℕ),
      idx + files.length = T →
      (tr.map Job.progress).Pairwise (· ≤ ·) →
      (∀ q ∈ tr.map Job.progress, q ≤ job.progress) →
      job.progress ≤ pyRound (baseQ idx T) →
      ((runFiles interval_s delay_s resize T folder job outs tr idx tfr files).trace.map
        Job.progress).Pairwise (· ≤ ·) ∧
      ((runFiles interval_s delay_s resize T folder job outs tr idx tfr files).job.status =
          "done" →
        (runFiles interval_s delay_s resize T folder job outs tr idx tfr files).job.progress =
          100) := by
  induction files with
  | nil =>
    intro job outs tr idx tfr hlen htr hlb hjob
    have hidx : idx = T := by simpa using hlen
    subst hidx
    simp only [runFiles]
    constructor
    · rw [List.map_append, List.pairwise_append]
      refine ⟨htr, by simp, ?_⟩
      intro a ha b hb
      simp only [List.map_cons, List.map_nil, List.mem_singleton] at hb
      subst hb
      show a ≤ (100 : ℤ)
      calc a ≤ job.progress := hlb a ha
        _ ≤ pyRound (baseQ idx idx) := hjob
        _ ≤ 100 := pyRound_baseQ_self_le idx
    · intro h
      trivial
  | cons f rest ih =>
    intro job outs tr idx tfr hlen htr hlb hjob
    cases f with
    | error msg =>
      simp only [runFiles]
      constructor
      · rw [List.map_append, List.pairwise_append]
        refine ⟨htr, by simp, ?_⟩
        intro a ha b hb
        simp only [List.map_cons, List.map_nil, List.mem_singleton] at hb
        subst hb
        exact hlb a ha
      · intro h
        simp [errorJob] at h
    | ok v =>
      have hlen' : (idx + 1) + rest.length = T := by
        simp at hlen
        omega
      have htp := extract_trace_progress v interval_s delay_s resize job idx T
      have hjp := extract_job_progress v interval_s delay_s resize job idx T
      have hfw_pair := fileWrites_pairwise interval_s delay_s v idx T
      have hfw_lower := fileWrites_lower interval_s delay_s v idx T
      have hfw_upper := fileWrites_upper interval_s delay_s v idx T
      -- progress of the record written after the file completes
      have hafter_lb : job.progress ≤
          (extract_frames_from_video v interval_s delay_s resize job idx T).job.progress := by
        rw [hjp]
        exact le_getLastD_of le_rfl (fun x hx => le_trans hjob (hfw_lower x hx))
      have hafter_ub :
          (extract_frames_from_video v interval_s delay_s resize job idx T).job.progress ≤
            pyRound (baseQ (idx + 1) T) := by
        rw [hjp]
        exact getLastD_le_of (le_trans hjob (pyRound_mono (baseQ_mono (Nat.le_succ idx))))
          hfw_upper
      have hmem_after : ∀ x ∈ (extract_frames_from_video v interval_s delay_s resize job idx
            T).trace.map Job.progress,
          x ≤ (extract_frames_from_video v interval_s delay_s resize job idx T).job.progress := by
        rw [htp, hjp]
        exact pairwise_le_getLastD hfw_pair job.progress
      simp only [runFiles]
      refine ih _ _ _ _ _ hlen' ?_ ?_ ?_
      · rw [List.map_append, List.pairwise_append]
        refine ⟨?_, by simp, ?_⟩
        · rw [List.map_append, List.pairwise_append]
          refine ⟨htr, by rw [htp]; exact hfw_pair, ?_⟩
          intro a ha b hb
          rw [htp] at hb
          calc a ≤ job.progress := hlb a ha
            _ ≤ pyRound (baseQ idx T) := hjob
            _ ≤ b := hfw_lower b hb
        · intro a ha b hb
          simp only [List.map_cons, List.map_nil, List.mem_singleton] at hb
          subst hb
          rw [List.map_append, List.mem_append] at ha
          show a ≤ (extract_frames_from_video v interval_s delay_s resize job idx T).job.progress
          rcases ha with ha | ha
          · exact le_trans (hlb a ha) hafter_lb
          · exact hmem_after a ha
      · intro q hq
        rw [List.map_append, List.mem_append] at hq
        show q ≤ (extract_frames_from_video v interval_s delay_s resize job idx T).job.progress
        rcases hq with hq | hq
        · rw [List.map_append, List.mem_append] at hq
          rcases hq with hq | hq
          · exact le_trans (hlb q hq) hafter_lb
          · exact hmem_after q hq
        · simp only [List.map_cons, List.map_nil, List.mem_singleton] at hq
          subst hq
          exact le_rfl
      · exact hafter_ub

/-! ## Behaviour of the file loop on erroring and on all-readable inputs -/

theorem runFiles_nil (interval_s delay_s : ℚ) (resize : Option ℚ) (T : ℕ) (folder : String)
    (job : Job) (outs : List Output) (tr : List Job) (idx tfr : ℕ) :
    runFiles interval_s delay_s resize T folder job outs tr idx tfr [] =
      ⟨doneJob job tfr folder, outs, tr ++ [doneJob job tfr folder]⟩ := rfl

theorem runFiles_cons_error (interval_s delay_s : ℚ) (resize : Option ℚ) (T : ℕ)
    (folder : String) (job : Job) (outs : List Output) (tr : List Job) (idx tfr : ℕ)
    (msg : String) (rest : List (Except String VideoFile)) :
    runFiles interval_s delay_s resize T folder job outs tr idx tfr
        (Except.error msg :: rest) =
      ⟨errorJob job msg, outs, tr ++ [errorJob job msg]⟩ := rfl

theorem runFiles_cons_ok (interval_s delay_s : ℚ) (resize : Option ℚ) (T : ℕ)
    (folder : String) (job : Job) (outs : List Output) (tr : List Job) (idx tfr : ℕ)
    (v : VideoFile) (rest : List (Except String VideoFile)) :
    runFiles interval_s delay_s resize T folder job outs tr idx tfr (Except.ok v :: rest) =
      runFiles interval_s delay_s resize T folder
        (afterFile tfr idx (extract_frames_from_video v interval_s delay_s resize job idx T))
        (outs ++ (extract_frames_from_video v interval_s delay_s resize job idx T).outputs)
        (tr ++ (extract_frames_from_video v interval_s delay_s resize job idx T).trace ++
          [afterFile tfr idx (extract_frames_from_video v interval_s delay_s resize job idx T)])
        (idx + 1) (tfr + (extract_frames_from_video v interval_s delay_s resize job idx T).n_frames)
        rest := rfl

theorem run_extraction_eq (job0 : Job) (video_paths : List (Except String VideoFile))
    (interval_s delay_s : ℚ) (resize : Option ℚ) (output_folder : String) :
    run_extraction job0 video_paths interval_s delay_s resize output_folder =
      runFiles interval_s delay_s resize video_paths.length output_folder
        { job0 with status := "running" } [] [{ job0 with status := "running" }]
        0 0 video_paths := rfl

theorem runFiles_stops (interval_s delay_s : ℚ) (resize : Option ℚ) (T : ℕ) (folder : String) :
    ∀ (vs : List VideoFile) (msg : String) (rest : List (Except String VideoFile))
      (job : Job) (outs : List Output) (tr : List Job) (idx tfr : ℕ),
      (runFiles interval_s delay_s resize T folder job outs tr idx tfr
        (vs.map Except.ok ++ Except.error msg :: rest)).job.status = "error" ∧
      (runFiles interval_s delay_s resize T folder job outs tr idx tfr
        (vs.map Except.ok ++ Except.error msg :: rest)).job.error = some msg ∧
      (runFiles interval_s delay_s resize T folder job outs tr idx tfr
        (vs.map Except.ok ++ Except.error msg :: rest)).outputs =
        outs ++ filesOutputs interval_s delay_s resize vs
  | [], msg, rest, job, outs, tr, idx, tfr => by
    rw [List.map_nil, List.nil_append, runFiles_cons_error]
    refine ⟨rfl, rfl, ?_⟩
    simp [filesOutputs]
  | v :: vs, msg, rest, job, outs, tr, idx, tfr => by
    rw [List.map_cons, List.cons_append, runFiles_cons_ok]
    have ih := runFiles_stops interval_s delay_s resize T folder vs msg rest
      (afterFile tfr idx (extract_frames_from_video v interval_s delay_s resize job idx T))
      (outs ++ (extract_frames_from_video v interval_s delay_s resize job idx T).outputs)
      (tr ++ (extract_frames_from_video v interval_s delay_s resize job idx T).trace ++
        [afterFile tfr idx (extract_frames_from_video v interval_s delay_s resize job idx T)])
      (idx + 1)
      (tfr + (extract_frames_from_video v interval_s delay_s resize job idx T).n_frames)
    refine ⟨ih.1, ih.2.1, ih.2.2.trans ?_⟩
    rw [extract_outputs]
    simp [filesOutputs]

theorem runFiles_ok_acc (interval_s delay_s : ℚ) (resize : Option ℚ) (T : ℕ) (folder : String) :
    ∀ (vs : List VideoFile) (job : Job) (outs : List Output) (tr : List Job) (idx tfr : ℕ),
      vs ≠ [] →
      (runFiles interval_s delay_s resize T folder job outs tr idx tfr
        (vs.map Except.ok)).job.frames_accumulated =
        some (tfr + (vs.map (scheduledCount interval_s delay_s)).sum)
  | [], _, _, _, _, _, hvs => absurd rfl hvs
  | [v], job, outs, tr, idx, tfr, _ => by
    rw [List.map_cons, List.map_nil, runFiles_cons_ok, runFiles_nil]
    rfl
  | v :: w :: vs, job, outs, tr, idx, tfr, _ => by
    rw [List.map_cons, runFiles_cons_ok]
    have ih := runFiles_ok_acc interval_s delay_s resize T folder (w :: vs)
      (afterFile tfr idx (extract_frames_from_video v interval_s delay_s resize job idx T))
      (outs ++ (extract_frames_from_video v interval_s delay_s resize job idx T).outputs)
      (tr ++ (extract_frames_from_video v interval_s delay_s resize job idx T).trace ++
        [afterFile tfr idx (extract_frames_from_video v interval_s delay_s resize job idx T)])
      (idx + 1)
      (tfr + (extract_frames_from_video v interval_s delay_s resize job idx T).n_frames)
      (by simp)
    rw [ih]
    have hn : (extract_frames_from_video v interval_s delay_s resize job idx T).n_frames =
        scheduledCount interval_s delay_s v := by
      rw [extract_eq]
    simp [hn, List.sum_cons]
    omega

/-! ## Concrete test fixtures -/

/-- A one-fps, three-frame test video whose frame at index 1 fails to decode. -/
def failClip : VideoFile :=
  ⟨"clip.mp4", "clip", 1, 3, 10, 10, fun idx => idx != 1⟩

/-- A one-fps, three-frame test video whose frames all decode. -/
def okClip : VideoFile :=
  ⟨"clip.mp4", "clip", 1, 3, 10, 10, fun _ => true⟩

theorem sched_1_3 : index_to_extract 1 1 0 3 = [0, 1, 2] := by
  have h1 : pyInt ((0 : ℚ) * 1) = 0 := by norm_num [pyInt]
  have h2 : pyInt ((1 : ℚ) * 1) = 1 := by norm_num [pyInt]
  rw [index_to_extract, h1, h2]
  decide

theorem sched_30_100 : index_to_extract 30 1 0 100 = [0, 30, 60, 90] := by
  have h1 : pyInt ((0 : ℚ) * 30) = 0 := by norm_num [pyInt]
  have h2 : pyInt ((30 : ℚ) * 1) = 30 := by norm_num [pyInt]
  rw [index_to_extract, h1, h2]
  decide

/-! ## Claims -/

/-- Claim C1 (amended): the extraction schedule is the arithmetic sequence
starting at `int(delay_s * r)` (truncation toward zero, not rounding to
nearest) with step `max(1, int(interval_s * r))`, truncated below the
frame count `n`: membership characterization plus strict sortedness; the
spec's concrete example `interval_s = 1, delay_s = 0, r = 30, n = 100 ↦
[0, 30, 60, 90]` does hold. -/
theorem C1_schedule (fps interval_s delay_s : ℚ) (n : ℤ) :
    (∀ k : ℤ, k ∈ index_to_extract fps interval_s delay_s n ↔
      ∃ j : ℕ, k = pyInt (delay_s * fps) + (j : ℤ) * max 1 (pyInt (fps * interval_s)) ∧
        k < n) ∧
    (index_to_extract fps interval_s delay_s n).Pairwise (· < ·) ∧
    index_to_extract 30 1 0 100 = [0, 30, 60, 90] :=
  ⟨fun _ => mem_pyRange (le_max_left 1 _), pyRange_sorted (le_max_left 1 _), sched_30_100⟩

/-- Claim C1, counterexample to the claim as stated: at frame rate 29.97
the code truncates `int(fps * interval_s)` to 29 while the claimed
`round` gives 30, so the computed schedule is not the round-based
arithmetic sequence. -/
theorem C1_counterexample :
    index_to_extract (2997/100) 1 0 100 ≠ specSchedule (2997/100) 1 0 100 := by
  have hcode : index_to_extract (2997/100) 1 0 100 = [0, 29, 58, 87] := by
    have h1 : pyInt ((0 : ℚ) * (2997/100)) = 0 := by norm_num [pyInt]
    have h2 : pyInt ((2997/100 : ℚ) * 1) = 29 := by norm_num [pyInt]
    rw [index_to_extract, h1, h2]
    decide
  have hspec : specSchedule (2997/100) 1 0 100 = [0, 30, 60, 90] := by
    have h1 : round ((0 : ℚ) * (2997/100)) = 0 := by norm_num [round_eq]
    have h2 : round ((1 : ℚ) * (2997/100)) = 30 := by norm_num [round_eq]
    rw [specSchedule, h1, h2]
    decide
  rw [hcode, hspec]
  decide

/-- Claim C2: every progress update published inside the frame loop writes
`round(100 * (files_done_at_file_start + file_fraction) / total_files)`,
where the file fraction is `(i+1)/n_frames` at schedule position `i`; and
the spec's concrete instance `round(100 * (1 + 5/10) / 2) = 75`. -/
theorem C2_progress_formula (v : VideoFile) (interval_s delay_s : ℚ) (resize : Option ℚ)
    (job : Job) (file_index total_files : ℕ) :
    (extract_frames_from_video v interval_s delay_s resize job file_index
        total_files).trace.map Job.progress =
      (hits interval_s delay_s v).map (fun p =>
        pyRound (100 * ((file_index : ℚ) + ((p.1 : ℚ) + 1) /
          (scheduledCount interval_s delay_s v : ℚ)) / (total_files : ℚ))) ∧
    pyRound (100 * ((1 : ℚ) + 5/10) / 2) = 75 := by
  constructor
  · rw [extract_trace_progress]
    have hfun : frameWrite file_index total_files (scheduledCount interval_s delay_s v) =
        fun p : ℕ × ℤ => pyRound (100 * ((file_index : ℚ) + ((p.1 : ℚ) + 1) /
          (scheduledCount interval_s delay_s v : ℚ)) / (total_files : ℚ)) := by
      funext p
      rw [frameWrite_eq]
      congr 1
      unfold ovQ
      ring
    rw [hfun]
  · norm_num [pyRound]

/-- Claim C3: for a job created by `upload`, the progress values a poller
can observe are monotonically non-decreasing, and when the job reaches
status `done` its progress is exactly 100. -/
theorem C3_progress_monotone (m : ℕ) (files : List (Except String VideoFile))
    (interval_s delay_s : ℚ) (resize : Option ℚ) (folder : String) :
    ((run_extraction (initialJob m) files interval_s delay_s resize folder).trace.map
      Job.progress).Pairwise (· ≤ ·) ∧
    ((run_extraction (initialJob m) files interval_s delay_s resize folder).job.status =
        "done" →
      (run_extraction (initialJob m) files interval_s delay_s resize folder).job.progress =
        100) := by
  rw [run_extraction_eq]
  refine runFiles_progress interval_s delay_s resize files.length folder files _ _ _ 0 0
    (by simp) (by simp) ?_ ?_
  · intro q hq
    simp only [List.map_cons, List.map_nil, List.mem_singleton] at hq
    subst hq
    exact le_rfl
  · show (0 : ℤ) ≤ pyRound (baseQ 0 files.length)
    rw [pyRound_baseQ_zero]

/-- Claim C3, witness: the empty job runs to `done` with the monotone
trace `[0, 100]` and final progress exactly 100. -/
theorem C3_witness :
    ((run_extraction (initialJob 0) [] 1 0 none "out").trace.map Job.progress).Pairwise
      (· ≤ ·) ∧
    (run_extraction (initialJob 0) [] 1 0 none "out").job.progress = 100 :=
  ⟨(C3_progress_monotone 0 [] 1 0 none "out").1,
   (C3_progress_monotone 0 [] 1 0 none "out").2 rfl⟩

/-- Claim C4 (amended): output files are named `{stem}_{i:04d}.jpg` where
`i` is the frame's position in the extraction schedule; positions whose
decode fails are omitted and leave gaps in the numbering, while a video
with no decode failures and three scheduled frames yields the consecutive
`clip_0000.jpg, clip_0001.jpg, clip_0002.jpg` in order. -/
theorem C4_naming (v : VideoFile) (interval_s delay_s : ℚ) (resize : Option ℚ)
    (job : Job) (file_index total_files : ℕ) :
    ((extract_frames_from_video v interval_s delay_s resize job file_index
        total_files).outputs).map Output.name =
      (hits interval_s delay_s v).map (fun p => v.stem ++ "_" ++ pad4 p.1 ++ ".jpg") ∧
    ((extract_frames_from_video okClip 1 0 none (initialJob 1) 0 1).outputs).map
        Output.name = ["clip_0000.jpg", "clip_0001.jpg", "clip_0002.jpg"] := by
  constructor
  · rw [extract_outputs]
    unfold videoOutputs
    rw [List.map_map]
    rfl
  · rw [extract_outputs]
    unfold videoOutputs okClip
    dsimp only
    rw [sched_1_3]
    decide

/-- Claim C4, counterexample to the claim as stated: with a decode failure
at schedule position 1, the two produced files are `clip_0000.jpg` and
`clip_0002.jpg` — not the gap-free consecutive numbering the claim
asserts. -/
theorem C4_counterexample :
    ((extract_frames_from_video failClip 1 0 none (initialJob 1) 0 1).outputs).map
        Output.name ≠
      (List.range ((extract_frames_from_video failClip 1 0 none (initialJob 1) 0
        1).outputs).length).map (fun j => "clip_" ++ pad4 j ++ ".jpg") := by
  have houts : (extract_frames_from_video failClip 1 0 none (initialJob 1) 0 1).outputs =
      [⟨"clip_0000.jpg", 10, 10⟩, ⟨"clip_0002.jpg", 10, 10⟩] := by
    rw [extract_outputs]
    unfold videoOutputs failClip
    dsimp only
    rw [sched_1_3]
    decide
  rw [houts]
  decide

/-- Claim C5: if a file raises while a job is processed, the job ends in
status `error` carrying the message, the files after the failing one
contribute nothing, and the output already written for the earlier files
is exactly preserved (no rollback). -/
theorem C5_error_abandons (job0 : Job) (vs : List VideoFile) (msg : String)
    (rest : List (Except String VideoFile)) (interval_s delay_s : ℚ) (resize : Option ℚ)
    (folder : String) :
    (run_extraction job0 (vs.map Except.ok ++ Except.error msg :: rest) interval_s delay_s
      resize folder).job.status = "error" ∧
    (run_extraction job0 (vs.map Except.ok ++ Except.error msg :: rest) interval_s delay_s
      resize folder).job.error = some msg ∧
    (run_extraction job0 (vs.map Except.ok ++ Except.error msg :: rest) interval_s delay_s
      resize folder).outputs = filesOutputs interval_s delay_s resize vs := by
  rw [run_extraction_eq]
  have h := runFiles_stops interval_s delay_s resize
    (vs.map Except.ok ++ Except.error msg :: rest).length folder vs msg rest
    { job0 with status := "running" } [] [{ job0 with status := "running" }] 0 0
  exact ⟨h.1, h.2.1, h.2.2.trans (by simp)⟩

/-- Claim C6 (amended): `frames_done` at each published update is the
number of schedule positions processed so far (accumulated scheduled
counts of earlier files plus the current position + 1), counting
positions skipped for decode failure; and after an all-readable run,
`frames_accumulated` is the sum of the files' scheduled frame counts —
not the number of frames actually extracted. -/
theorem C6_frames_counts (v : VideoFile) (interval_s delay_s : ℚ) (resize : Option ℚ)
    (job : Job) (file_index total_files m : ℕ) (vs : List VideoFile) (folder : String)
    (hvs : vs ≠ []) :
    (extract_frames_from_video v interval_s delay_s resize job file_index
        total_files).trace.map Job.frames_done =
      (hits interval_s delay_s v).map (fun p => job.frames_accumulated.getD 0 + p.1 + 1) ∧
    (run_extraction (initialJob m) (vs.map Except.ok) interval_s delay_s resize
        folder).job.frames_accumulated =
      some ((vs.map (scheduledCount interval_s delay_s)).sum) := by
  constructor
  · rw [extract_eq]
    dsimp only
    rw [List.map_map]
    rfl
  · rw [run_extraction_eq]
    rw [runFiles_ok_acc interval_s delay_s resize (vs.map Except.ok).length folder vs
      { initialJob m with status := "running" } [] [{ initialJob m with status := "running" }]
      0 0 hvs]
    simp

/-- Claim C6, witness: the one-file instantiation of the amended claim. -/
theorem C6_witness :
    [okClip] ≠ ([] : List VideoFile) ∧
    ((extract_frames_from_video okClip 1 0 none (initialJob 1) 0 1).trace.map
        Job.frames_done =
      (hits 1 0 okClip).map (fun p => (initialJob 1).frames_accumulated.getD 0 + p.1 + 1) ∧
     (run_extraction (initialJob 1) ([okClip].map Except.ok) 1 0 none
        "out").job.frames_accumulated =
      some (([okClip].map (scheduledCount 1 0)).sum)) :=
  ⟨by simp,
   C6_frames_counts okClip 1 0 none (initialJob 1) 0 1 1 [okClip] "out" (by simp)⟩

/-- Claim C6, counterexample to the claim as stated: a run over one video
with three scheduled frames of which the one at position 1 fails to
decode ends with `frames_done = 3` and `frames_accumulated = some 3`,
although only 2 frames were actually extracted and written. -/
theorem C6_counterexample :
    (run_extraction (initialJob 1) [Except.ok failClip] 1 0 none "out").job.frames_done =
      3 ∧
    (run_extraction (initialJob 1) [Except.ok failClip] 1 0 none
      "out").job.frames_accumulated = some 3 ∧
    (run_extraction (initialJob 1) [Except.ok failClip] 1 0 none "out").outputs.length =
      2 := by
  have hh : hits 1 0 failClip = [(0, 0), (2, 2)] := by
    unfold hits failClip
    dsimp only
    rw [sched_1_3]
    decide
  have hc : scheduledCount 1 0 failClip = 3 := by
    unfold scheduledCount failClip
    dsimp only
    rw [sched_1_3]
    rfl
  rw [run_extraction_eq, runFiles_cons_ok, runFiles_nil]
  simp only [extract_eq, hh, hc]
  decide

/-- Claim C7 (amended): resized dimensions are `w * f` and `h * f`
truncated toward the integer below (Python `int()`), not rounded to
nearest: the result is the floor of the exact product when the product is
nonnegative; factor 1/2 on 1920x1080 still yields 960x540. -/
theorem C7_resize_truncates (w h : ℤ) (f : ℚ) (hw : 0 ≤ (w : ℚ) * f)
    (hh : 0 ≤ (h : ℚ) * f) :
    ((resize_image ⟨w, h⟩ f).width : ℚ) ≤ (w : ℚ) * f ∧
    (w : ℚ) * f < ((resize_image ⟨w, h⟩ f).width : ℚ) + 1 ∧
    ((resize_image ⟨w, h⟩ f).height : ℚ) ≤ (h : ℚ) * f ∧
    (h : ℚ) * f < ((resize_image ⟨w, h⟩ f).height : ℚ) + 1 ∧
    resize_image ⟨1920, 1080⟩ (1/2) = ⟨960, 540⟩ := by
  have hwi : (resize_image ⟨w, h⟩ f).width = ⌊(w : ℚ) * f⌋ := by
    unfold resize_image pyInt
    dsimp only
    rw [if_pos hw]
  have hhi : (resize_image ⟨w, h⟩ f).height = ⌊(h : ℚ) * f⌋ := by
    unfold resize_image pyInt
    dsimp only
    rw [if_pos hh]
  refine ⟨?_, ?_, ?_, ?_, ?_⟩
  · rw [hwi]
    exact Int.floor_le _
  · rw [hwi]
    exact Int.lt_floor_add_one _
  · rw [hhi]
    exact Int.floor_le _
  · rw [hhi]
    exact Int.lt_floor_add_one _
  · unfold resize_image pyInt
    dsimp only
    norm_num

/-- Claim C7, witness: the theorem applied to a 1920x1080 frame and
factor 1/2. -/
theorem C7_witness :
    0 ≤ ((1920 : ℤ) : ℚ) * (1/2) ∧
    (((resize_image ⟨1920, 1080⟩ (1/2)).width : ℚ) ≤ ((1920 : ℤ) : ℚ) * (1/2) ∧
     ((1920 : ℤ) : ℚ) * (1/2) < ((resize_image ⟨1920, 1080⟩ (1/2)).width : ℚ) + 1 ∧
     ((resize_image ⟨1920, 1080⟩ (1/2)).height : ℚ) ≤ ((1080 : ℤ) : ℚ) * (1/2) ∧
     ((1080 : ℤ) : ℚ) * (1/2) < ((resize_image ⟨1920, 1080⟩ (1/2)).height : ℚ) + 1 ∧
     resize_image ⟨1920, 1080⟩ (1/2) = ⟨960, 540⟩) :=
  ⟨by norm_num, C7_resize_truncates 1920 1080 (1/2) (by norm_num) (by norm_num)⟩

/-- Claim C7, counterexample to the claim as stated: a 3x3 frame resized
by factor 1/2 comes out 1x1, while rounding `3 * (1/2)` to the nearest
integer gives 2, so the output is not the claimed rounded size. -/
theorem C7_counterexample :
    (resize_image ⟨3, 3⟩ (1/2)).width ≠ round (((3 : ℤ) : ℚ) * (1/2)) ∧
    resize_image ⟨3, 3⟩ (1/2) = ⟨1, 1⟩ := by
  have h1 : resize_image ⟨3, 3⟩ (1/2) = ⟨1, 1⟩ := by
    unfold resize_image pyInt
    dsimp only
    norm_num
  have h2 : round (((3 : ℤ) : ℚ) * (1/2)) = 2 := by
    push_cast
    norm_num [round_eq]
  refine ⟨?_, h1⟩
  rw [h1, h2]
  decide

/-- Claim C8 (amended): requesting status for an unknown job id yields the
not-found error (404, "Job not found"), but the download route answers
with the not-ready error (400, "Job not ready") both for unknown ids and
for registered jobs that are still running. -/
theorem C8_routes (jobs jobs' : Registry) (job_id job_id' : String) (j : Job)
    (h1 : lookup jobs job_id = none) (h2 : lookup jobs' job_id' = some j)
    (h3 : j.status = "running") :
    progress jobs job_id = RouteResult.err "Job not found" 404 ∧
    download jobs job_id = DownloadResult.err "Job not ready" 400 ∧
    download jobs' job_id' = DownloadResult.err "Job not ready" 400 := by
  refine ⟨?_, ?_, ?_⟩
  · unfold progress
    rw [h1]
  · unfold download
    rw [h1]
  · unfold download
    rw [h2]
    dsimp only
    rw [if_pos (show j.status ≠ "done" by rw [h3]; decide)]

/-- Claim C8, witness: the theorem applied to the empty registry and to a
registry holding one running job. -/
theorem C8_witness :
    lookup [] "missing" = none ∧
    lookup [("a", { initialJob 1 with status := "running" })] "a" =
      some { initialJob 1 with status := "running" } ∧
    ({ initialJob 1 with status := "running" } : Job).status = "running" ∧
    (progress [] "missing" = RouteResult.err "Job not found" 404 ∧
     download [] "missing" = DownloadResult.err "Job not ready" 400 ∧
     download [("a", { initialJob 1 with status := "running" })] "a" =
       DownloadResult.err "Job not ready" 400) :=
  ⟨rfl, rfl, rfl,
   C8_routes [] [("a", { initialJob 1 with status := "running" })] "missing" "a"
     { initialJob 1 with status := "running" } rfl rfl rfl⟩

/-- Claim C8, counterexample to the claim as stated: for an unknown id the
download route does not return the not-found error the status route uses;
it returns the not-ready error with code 400. -/
theorem C8_counterexample :
    download [] "missing" = DownloadResult.err "Job not ready" 400 ∧
    DownloadResult.err "Job not ready" 400 ≠ DownloadResult.err "Job not found" 404 := by
  refine ⟨rfl, ?_⟩
  decide

/-- Claim C9: a submission with no files, or whose files all lack an
accepted video extension, is answered synchronously with a submission
error and leaves the job registry unchanged. -/
theorem C9_invalid_submission (jobs : Registry) (filenames : List String) (rf : Option ℚ)
    (job_id : String)
    (h : filenames = [] ∨ ∀ f ∈ filenames, hasVideoExt f = false) :
    ((upload jobs filenames rf job_id).response = Except.error ("No files uploaded", 400) ∨
     (upload jobs filenames rf job_id).response =
       Except.error ("No valid video files (MP4, MOV, AVI)", 400)) ∧
    (upload jobs filenames rf job_id).registry = jobs := by
  by_cases hh : filenames.headD "" = ""
  · unfold upload
    rw [if_pos hh]
    exact ⟨Or.inl rfl, rfl⟩
  · have hne : filenames ≠ [] := by
      intro hnil
      subst hnil
      simp at hh
    rcases h with rfl | hall
    · exact absurd rfl hne
    · have hfil : filenames.filter hasVideoExt = [] := by
        rw [List.filter_eq_nil_iff]
        intro a ha
        simp [hall a ha]
      unfold upload
      rw [if_neg hh]
      simp only [hfil]
      exact ⟨Or.inr rfl, rfl⟩

/-- Claim C9, witness: a single text file is rejected with the
no-valid-files error and the registry stays empty. -/
theorem C9_witness :
    (["notes.txt"] = ([] : List String) ∨
      ∀ f ∈ ["notes.txt"], hasVideoExt f = false) ∧
    (((upload [] ["notes.txt"] none "jobid").response =
        Except.error ("No files uploaded", 400) ∨
      (upload [] ["notes.txt"] none "jobid").response =
        Except.error ("No valid video files (MP4, MOV, AVI)", 400)) ∧
     (upload [] ["notes.txt"] none "jobid").registry = []) :=
  ⟨Or.inr (by decide),
   C9_invalid_submission [] ["notes.txt"] none "jobid" (Or.inr (by decide))⟩

/-- Claim C10: a `resize_factor ≥ 1` is not rejected — uploading behaves
exactly as if the factor were absent, the parsed factor is `none`, and
the worker applies no resizing (output frames keep the source
dimensions); a factor ≤ 0 passes the `< 1` check and is handed to the
worker unvalidated. -/
theorem C10_resize_unvalidated (f g : ℚ) (jobs : Registry) (filenames : List String)
    (job_id : String) (v : VideoFile) (interval_s delay_s : ℚ) (job : Job)
    (file_index total_files : ℕ) (hf : 1 ≤ f) (hg : g ≤ 0) :
    parseResize (some f) = none ∧
    upload jobs filenames (some f) job_id = upload jobs filenames none job_id ∧
    (∀ out ∈ (extract_frames_from_video v interval_s delay_s none job file_index
        total_files).outputs, out.width = v.frame_width ∧ out.height = v.frame_height) ∧
    parseResize (some g) = some g := by
  have hpf : parseResize (some f) = none := by
    unfold parseResize
    dsimp only
    rw [if_neg (not_lt.2 hf)]
  refine ⟨hpf, ?_, ?_, ?_⟩
  · simp only [upload, parseResize]
    rw [if_neg (not_lt.2 hf)]
  · intro out hout
    rw [extract_outputs] at hout
    unfold videoOutputs at hout
    rcases List.mem_map.1 hout with ⟨p, hp, rfl⟩
    unfold frameOut frameImage
    rw [if_neg (by simp)]
    exact ⟨rfl, rfl⟩
  · unfold parseResize
    dsimp only
    rw [if_pos (lt_of_le_of_lt hg one_pos)]

/-- Claim C10, witness: factor 3/2 is treated as absent and the run is
unresized, while factor -1 is passed through. -/
theorem C10_witness :
    (1 ≤ (3/2 : ℚ)) ∧ ((-1 : ℚ) ≤ 0) ∧
    (parseResize (some (3/2 : ℚ)) = none ∧
     upload [] ["a.mp4"] (some (3/2 : ℚ)) "j" = upload [] ["a.mp4"] none "j" ∧
     (∀ out ∈ (extract_frames_from_video okClip 1 0 none (initialJob 1) 0 1).outputs,
        out.width = okClip.frame_width ∧ out.height = okClip.frame_height) ∧
     parseResize (some (-1 : ℚ)) = some (-1)) :=
  ⟨by norm_num, by norm_num,
   C10_resize_unvalidated (3/2) (-1) [] ["a.mp4"] "j" okClip 1 0 (initialJob 1) 0 1
     (by norm_num) (by norm_num)⟩

end VideosToPhotos
